import Mathlib

/-!
Verification of the static-asset compression cache of the Cutelyst
StaticCompressed plugin.

The data model and the operations below are a shallow embedding of
`src/Cutelyst/Plugins/StaticCompressed/staticcompressed_p.h` together with
the subsystem described in `spec.md`.  The private header only declares the
operations and fixes the configuration defaults and bounds; the
implementation file (`staticcompressed.cpp`) is not part of the sources at
hand, so the behaviour of the declared operations is modelled from the
specification, as indicated in the doc comment of each such definition.

Filesystem paths are modelled as lists of characters, last-modified
timestamps as natural numbers (seconds since the epoch), and file contents
as lists of bytes.
-/

namespace Cutelyst

/-- The `Compression` enumeration of `StaticCompressedPrivate`
(staticcompressed_p.h line 25): `enum Compression { Gzip, Zopfli, Brotli,
Deflate, Zstd };`. -/
inductive Compression : Type
  | Gzip
  | Zopfli
  | Brotli
  | Deflate
  | Zstd
  deriving DecidableEq, Repr

/-- Modelled from the spec: the file-extension tag of each codec (§3 gives
every codec "a file-extension tag"; §4.3 requires the cache-path encoding to
embed a codec tag so that two different triples never alias, hence the tags
are pairwise distinct and contain no separator characters). -/
def codecExt : Compression → List Char
  | .Gzip => ['g', 'z']
  | .Zopfli => ['z', 'o', 'p', 'f', 'l', 'i']
  | .Brotli => ['b', 'r']
  | .Deflate => ['d', 'e', 'f', 'l', 'a', 't', 'e']
  | .Zstd => ['z', 's', 't']

/-- The character for a single decimal digit. -/
def digitChar (d : Nat) : Char := Char.ofNat (48 + d)

/-- Decimal rendering of a natural number as a list of characters
(most-significant digit first). -/
def natToChars (n : Nat) : List Char :=
  ((Nat.digits 10 n).map digitChar).reverse

/-- The numeric value of a digit character. -/
def charVal (c : Char) : Nat := c.toNat - 48

/-- Parse a decimal character list back to a natural number. -/
def charsToNat (l : List Char) : Nat :=
  Nat.ofDigits 10 (l.reverse.map charVal)

theorem charVal_digitChar {d : Nat} (hd : d < 10) : charVal (digitChar d) = d := by
  interval_cases d <;> decide

theorem digitChar_ne_dot {d : Nat} (hd : d < 10) : digitChar d ≠ '.' := by
  interval_cases d <;> decide

theorem charsToNat_natToChars (n : Nat) : charsToNat (natToChars n) = n := by
  unfold charsToNat natToChars
  rw [List.reverse_reverse, List.map_map]
  have hmap : (Nat.digits 10 n).map (charVal ∘ digitChar) = Nat.digits 10 n := by
    apply List.map_congr_left ?_ |>.trans (List.map_id _)
    intro d hd
    exact charVal_digitChar (Nat.digits_lt_base (by norm_num) hd)
  rw [hmap, Nat.ofDigits_digits]

theorem dot_not_mem_natToChars (n : Nat) : '.' ∉ natToChars n := by
  intro h
  unfold natToChars at h
  rw [List.mem_reverse, List.mem_map] at h
  obtain ⟨d, hd, hdc⟩ := h
  exact digitChar_ne_dot (Nat.digits_lt_base (by norm_num) hd) hdc

theorem dot_not_mem_codecExt (c : Compression) : '.' ∉ codecExt c := by
  cases c <;> decide

theorem codecExt_inj {c₁ c₂ : Compression} (h : codecExt c₁ = codecExt c₂) : c₁ = c₂ := by
  cases c₁ <;> cases c₂ <;> first | rfl | (exact absurd h (by decide))

/-- Splitting a character list at a fence character that the trailing part
avoids: the part before the last dot and the part after it are uniquely
determined. -/
theorem takeWhile_fence (a u : List Char) (ha : '.' ∉ a) :
    (a ++ '.' :: u).takeWhile (fun c => c != '.') = a := by
  induction a with
  | nil => simp [List.takeWhile]
  | cons c a ih =>
    have hc : c ≠ '.' := fun hcd => ha (hcd ▸ List.mem_cons_self c a)
    have ha' : '.' ∉ a := fun hmem => ha (List.mem_cons_of_mem c hmem)
    simp only [List.cons_append, List.takeWhile_cons]
    rw [if_pos (by simpa using hc), ih ha']

theorem dropWhile_fence (a u : List Char) (ha : '.' ∉ a) :
    (a ++ '.' :: u).dropWhile (fun c => c != '.') = '.' :: u := by
  induction a with
  | nil => simp [List.dropWhile]
  | cons c a ih =>
    have hc : c ≠ '.' := fun hcd => ha (hcd ▸ List.mem_cons_self c a)
    have ha' : '.' ∉ a := fun hmem => ha (List.mem_cons_of_mem c hmem)
    simp only [List.cons_append, List.dropWhile_cons]
    rw [if_pos (by simpa using hc), ih ha']

/-- If two dot-terminated concatenations agree and the trailing components
are dot-free, then both components agree. -/
theorem append_dot_inj {u v a b : List Char} (ha : '.' ∉ a) (hb : '.' ∉ b)
    (h : u ++ '.' :: a = v ++ '.' :: b) : u = v ∧ a = b := by
  have hrev : a.reverse ++ '.' :: u.reverse = b.reverse ++ '.' :: v.reverse := by
    have := congrArg List.reverse h
    simpa [List.reverse_append] using this
  have ha' : '.' ∉ a.reverse := by simpa using ha
  have hb' : '.' ∉ b.reverse := by simpa using hb
  have htake := congrArg (List.takeWhile (fun c => c != '.')) hrev
  rw [takeWhile_fence _ _ ha', takeWhile_fence _ _ hb'] at htake
  have hdrop := congrArg (List.dropWhile (fun c => c != '.')) hrev
  rw [dropWhile_fence _ _ ha', dropWhile_fence _ _ hb'] at hdrop
  constructor
  · have : u.reverse = v.reverse := by
      injection hdrop
    simpa using congrArg List.reverse this
  · simpa using congrArg List.reverse htake

/-- Modelled from the spec: `StaticCompressedPrivate::locateCacheFile`
(declared at staticcompressed_p.h lines 29-31; the defining source file is
not available).  Per §4.3 and §6 the cache path is derived deterministically
under the cache root by structural mirroring of the source path, embedding
the source's last-modified timestamp and the codec's extension tag, in the
shape `<cacheRoot>/<origPath>.<timestamp>.<ext>` (§8:
`<cache>/style.css.<T1>.gz`). -/
def locateCacheFile (cacheRoot origPath : List Char) (origLastModified : Nat)
    (compression : Compression) : List Char :=
  cacheRoot ++ '/' :: (origPath ++ '.' :: (natToChars origLastModified ++ '.' :: codecExt compression))

theorem locateCacheFile_inj_aux {cacheRoot p₁ p₂ : List Char} {t₁ t₂ : Nat}
    {c₁ c₂ : Compression}
    (h : locateCacheFile cacheRoot p₁ t₁ c₁ = locateCacheFile cacheRoot p₂ t₂ c₂) :
    p₁ = p₂ ∧ t₁ = t₂ ∧ c₁ = c₂ := by
  unfold locateCacheFile at h
  have h1 : (p₁ ++ '.' :: natToChars t₁) ++ '.' :: codecExt c₁ =
      (p₂ ++ '.' :: natToChars t₂) ++ '.' :: codecExt c₂ := by
    have h0 : p₁ ++ '.' :: (natToChars t₁ ++ '.' :: codecExt c₁) =
        p₂ ++ '.' :: (natToChars t₂ ++ '.' :: codecExt c₂) := by
      have := List.append_cancel_left h
      exact List.cons_injective this
    simpa [List.append_assoc] using h0
  obtain ⟨h2, hext⟩ := append_dot_inj (dot_not_mem_codecExt c₁) (dot_not_mem_codecExt c₂) h1
  obtain ⟨hp, hts⟩ := append_dot_inj (dot_not_mem_natToChars t₁) (dot_not_mem_natToChars t₂) h2
  refine ⟨hp, ?_, codecExt_inj hext⟩
  have := congrArg charsToNat hts
  rwa [charsToNat_natToChars, charsToNat_natToChars] at this

/-- Claim C1: the cache path computed by `locateCacheFile` is a deterministic
function of the triple (source path, source last-modified timestamp, codec)
and is injective: two triples compute the same cache path exactly when they
are equal (so distinct source paths, including ones differing only around
directory separators, distinct timestamps, or distinct codecs never alias);
consequently changing a source file's last-modified timestamp changes the
computed cache path for every codec. -/
theorem locateCacheFile_key_injective (cacheRoot p₁ p₂ : List Char) (t₁ t₂ : Nat)
    (c₁ c₂ : Compression) :
    (locateCacheFile cacheRoot p₁ t₁ c₁ = locateCacheFile cacheRoot p₂ t₂ c₂ ↔
      p₁ = p₂ ∧ t₁ = t₂ ∧ c₁ = c₂) ∧
    (t₁ ≠ t₂ → ∀ p : List Char, ∀ c : Compression,
      locateCacheFile cacheRoot p t₁ c ≠ locateCacheFile cacheRoot p t₂ c) := by
  constructor
  · constructor
    · exact fun h => locateCacheFile_inj_aux h
    · rintro ⟨rfl, rfl, rfl⟩
      rfl
  · intro hne p c h
    exact hne (locateCacheFile_inj_aux h).2.1

/-- Witness for C1 at a concrete input: touching the timestamp (1000 to 1001)
of the same source path changes the gzip cache path. -/
theorem locateCacheFile_key_injective_witness :
    locateCacheFile ['t'] ['a'] 1000 Compression.Gzip ≠
      locateCacheFile ['t'] ['a'] 1001 Compression.Gzip :=
  (locateCacheFile_key_injective ['t'] ['a'] ['a'] 1000 1001 Compression.Gzip
    Compression.Gzip).2 (by decide) ['a'] Compression.Gzip

/-- Modelled from the spec: the index-free cache lookup of the Cache Store
(§4.3; the defining source file of `locateOrBuild` is not available).  The
store is the set of paths existing under the cache directory; a lookup for a
(source path, current timestamp, codec) triple only tests existence of a
file at the computed path and performs no further timestamp comparison. -/
def cacheHit (store : List Char → Bool) (cacheRoot p : List Char) (tsCur : Nat)
    (c : Compression) : Bool :=
  store (locateCacheFile cacheRoot p tsCur c)

/-- A cache directory holding exactly one entry, built for recorded
timestamp `tsRec` of source `p` with codec `c`. -/
def singleEntryStore (cacheRoot p : List Char) (tsRec : Nat) (c : Compression) :
    List Char → Bool :=
  fun path => decide (path = locateCacheFile cacheRoot p tsRec c)

/-- Claim C2: cache-entry validity is equivalent to timestamp match.  For a
store holding the entry recorded at timestamp `tsRec`, the existence-only
lookup at the current timestamp `tsCur` hits if and only if
`tsCur = tsRec`: existence at the computed path proves freshness by
construction, and a timestamp mismatch makes the lookup miss (the entry is
treated as absent and recomputed). -/
theorem cacheHit_iff_timestamp_match (cacheRoot p : List Char) (tsRec tsCur : Nat)
    (c : Compression) :
    cacheHit (singleEntryStore cacheRoot p tsRec c) cacheRoot p tsCur c = true ↔
      tsCur = tsRec := by
  unfold cacheHit singleEntryStore
  rw [decide_eq_true_eq]
  constructor
  · intro h
    exact (locateCacheFile_inj_aux h).2.1
  · rintro rfl
    rfl

/-- Witness for C2 at a concrete input: the entry recorded at timestamp 5 is
hit at current timestamp 5. -/
theorem cacheHit_iff_timestamp_match_witness :
    cacheHit (singleEntryStore ['t'] ['a'] 5 Compression.Brotli) ['t'] ['a'] 5
      Compression.Brotli = true :=
  (cacheHit_iff_timestamp_match ['t'] ['a'] 5 5 Compression.Brotli).mpr rfl

/-- staticcompressed_p.h line 72: `constexpr static int zlibCompressionLevelDefault{9};` -/
def zlibCompressionLevelDefault : Int := 9

/-- staticcompressed_p.h line 73: `constexpr static int zlibCompressionLevelMin{0};` -/
def zlibCompressionLevelMin : Int := 0

/-- staticcompressed_p.h line 74: `constexpr static int zlibCompressionLevelMax{9};` -/
def zlibCompressionLevelMax : Int := 9

/-- staticcompressed_p.h line 76: `constexpr static int zopfliIterationsDefault{15};` -/
def zopfliIterationsDefault : Int := 15

/-- staticcompressed_p.h line 77: `constexpr static int zopfliIterationsMin{1};` -/
def zopfliIterationsMin : Int := 1

/-- staticcompressed_p.h line 46: `constexpr static int qualityLevelDefault{11};`
inside `struct BrotliConfig`. -/
def brotliQualityLevelDefault : Int := 11

/-- staticcompressed_p.h line 60: `constexpr static int compressionLevelDefault{9};`
inside `struct ZstdConfig`. -/
def zstdCompressionLevelDefault : Int := 9

/-- The `BrotliConfig` member struct (staticcompressed_p.h lines 45-48); the
compression context pointer of the C++ struct is not part of the data
model. -/
structure BrotliConfig where
  qualityLevel : Int

/-- The `ZstdConfig` member struct (staticcompressed_p.h lines 56-62),
without the `ZSTD_CCtx` resource handle. -/
structure ZstdConfig where
  compressionLevel : Int

/-- The configuration fields of `StaticCompressedPrivate`
(staticcompressed_p.h lines 65-82), restricted to the scalar tunables and
flags the claims are about. -/
structure StaticCompressedPrivate where
  zlibCompressionLevel : Int
  zopfliIterations : Int
  useZopfli : Bool
  checkPreCompressed : Bool
  onTheFlyCompression : Bool
  serveDirsOnly : Bool
  brotli : BrotliConfig
  zstd : ZstdConfig

/-- The default-initialized `StaticCompressedPrivate`: each field carries the
brace initializer given in staticcompressed_p.h (lines 47, 61, 75, 78-82):
`zlibCompressionLevel{zlibCompressionLevelDefault}`,
`zopfliIterations{zopfliIterationsDefault}`, `useZopfli{false}`,
`checkPreCompressed{true}`, `onTheFlyCompression{true}`,
`serveDirsOnly{false}`, `qualityLevel{qualityLevelDefault}`,
`compressionLevel{compressionLevelDefault}`. -/
def defaultStaticCompressedPrivate : StaticCompressedPrivate :=
  ⟨zlibCompressionLevelDefault, zopfliIterationsDefault, false, true, true, false,
    ⟨brotliQualityLevelDefault⟩, ⟨zstdCompressionLevelDefault⟩⟩

/-- Claim C8: when no configuration value is supplied every option takes its
documented default: zlibCompressionLevel 9 (valid range 0-9),
zopfliIterations 15 (minimum 1), brotli.qualityLevel 11,
zstd.compressionLevel 9, useZopfli false, checkPreCompressed true,
onTheFlyCompression true, serveDirsOnly false. -/
theorem default_config_values :
    defaultStaticCompressedPrivate.zlibCompressionLevel = 9 ∧
    zlibCompressionLevelMin = 0 ∧ zlibCompressionLevelMax = 9 ∧
    defaultStaticCompressedPrivate.zopfliIterations = 15 ∧
    zopfliIterationsMin = 1 ∧
    defaultStaticCompressedPrivate.brotli.qualityLevel = 11 ∧
    defaultStaticCompressedPrivate.zstd.compressionLevel = 9 ∧
    defaultStaticCompressedPrivate.useZopfli = false ∧
    defaultStaticCompressedPrivate.checkPreCompressed = true ∧
    defaultStaticCompressedPrivate.onTheFlyCompression = true ∧
    defaultStaticCompressedPrivate.serveDirsOnly = false := by
  refine ⟨rfl, rfl, rfl, rfl, rfl, rfl, rfl, rfl, rfl, rfl, rfl⟩

/-- Modelled from the spec: the configuration loader clamps an out-of-range
zlib compression level to the documented bounds of the header
(`zlibCompressionLevelMin` 0 and `zlibCompressionLevelMax` 9) before any
backend is invoked (§4.4, §7; the defining source file is not available). -/
def clampZlibLevel (requested : Int) : Int :=
  max zlibCompressionLevelMin (min zlibCompressionLevelMax requested)

/-- Modelled from the spec: the configuration loader clamps a Zopfli
iteration count below the documented minimum (`zopfliIterationsMin` 1) up to
that minimum before the backend is invoked (§4.4, §7; the defining source
file is not available). -/
def clampZopfliIterations (requested : Int) : Int :=
  max zopfliIterationsMin requested

/-- Modelled from the spec: behaviour of a level-tunable backend invocation —
the backend is a black box (§1) applied to the clamped level, so two
configurations behave identically exactly when their clamped levels agree. -/
def deflateBehaviour (backend : Int → List Nat → List Nat) (requestedLevel : Int)
    (input : List Nat) : List Nat :=
  backend (clampZlibLevel requestedLevel) input

/-- Modelled from the spec: behaviour of the Zopfli backend invocation on the
clamped iteration count. -/
def zopfliBehaviour (backend : Int → List Nat → List Nat) (requestedIterations : Int)
    (input : List Nat) : List Nat :=
  backend (clampZopfliIterations requestedIterations) input

/-- Claim C7: out-of-range numeric tunables are silently clamped to their
documented bounds before the backend is invoked: every configured zlib level
above 9 behaves identically to level 9 and every level below 0 identically
to 0, and every Zopfli iteration count below 1 behaves identically to 1; in
particular zlibCompressionLevel 15 behaves identically to 9 and
zopfliIterations 0 identically to 1, for every backend and every input. -/
theorem tunables_clamped_to_bounds :
    (∀ backend : Int → List Nat → List Nat, ∀ lvl : Int, ∀ input : List Nat,
      9 < lvl → deflateBehaviour backend lvl input = deflateBehaviour backend 9 input) ∧
    (∀ backend : Int → List Nat → List Nat, ∀ lvl : Int, ∀ input : List Nat,
      lvl < 0 → deflateBehaviour backend lvl input = deflateBehaviour backend 0 input) ∧
    (∀ backend : Int → List Nat → List Nat, ∀ iter : Int, ∀ input : List Nat,
      iter < 1 → zopfliBehaviour backend iter input = zopfliBehaviour backend 1 input) ∧
    (∀ backend : Int → List Nat → List Nat, ∀ input : List Nat,
      deflateBehaviour backend 15 input = deflateBehaviour backend 9 input) ∧
    (∀ backend : Int → List Nat → List Nat, ∀ input : List Nat,
      zopfliBehaviour backend 0 input = zopfliBehaviour backend 1 input) := by
  refine ⟨?_, ?_, ?_, ?_, ?_⟩
  · intro backend lvl input h
    unfold deflateBehaviour clampZlibLevel zlibCompressionLevelMin zlibCompressionLevelMax
    congr 1
    omega
  · intro backend lvl input h
    unfold deflateBehaviour clampZlibLevel zlibCompressionLevelMin zlibCompressionLevelMax
    congr 1
    omega
  · intro backend iter input h
    unfold zopfliBehaviour clampZopfliIterations zopfliIterationsMin
    congr 1
    omega
  · intro backend input
    unfold deflateBehaviour clampZlibLevel zlibCompressionLevelMin zlibCompressionLevelMax
    congr 1
  · intro backend input
    unfold zopfliBehaviour clampZopfliIterations zopfliIterationsMin
    congr 1

/-- Witness for C7 at a concrete input: an identity backend at requested
level 15 produces the same bytes as at level 9. -/
theorem tunables_clamped_to_bounds_witness :
    deflateBehaviour (fun _ input => input) 15 [1, 2, 3] =
      deflateBehaviour (fun _ input => input) 9 [1, 2, 3] :=
  tunables_clamped_to_bounds.2.2.2.1 (fun _ input => input) [1, 2, 3]

/-- The build-time capability flags: staticcompressed_p.h guards
`compressZopfli` with `CUTELYST_STATICCOMPRESSED_WITH_ZOPFLI` (lines 36-38),
`compressBrotli` with `CUTELYST_STATICCOMPRESSED_WITH_BROTLI` (lines 40-49)
and `compressZstd` with `CUTELYST_STATICCOMPRESSED_WITH_ZSTD` (lines 51-63),
while `compressGzip` and `compressDeflate` (lines 32-35) are unconditional. -/
structure BuildFlags where
  withZopfli : Bool
  withBrotli : Bool
  withZstd : Bool
  deriving DecidableEq

/-- Which codecs exist in a given build: Deflate and Gzip always; Zopfli,
Brotli and Zstd exactly when the corresponding backend was compiled in
(mirrors the preprocessor guards of staticcompressed_p.h). -/
def codecAvailable (f : BuildFlags) : Compression → Bool
  | .Gzip => true
  | .Deflate => true
  | .Zopfli => f.withZopfli
  | .Brotli => f.withBrotli
  | .Zstd => f.withZstd

/-- Modelled from the spec: codec-priority negotiation queries the
availability table and keeps, of the client's ordered preference list, only
codecs whose backend is compiled in (§4.4, §6, §9: "all negotiation logic
queries this table"; the defining source file is not available). -/
def negotiateCodecs (f : BuildFlags) (clientOrder : List Compression) :
    List Compression :=
  clientOrder.filter (codecAvailable f)

/-- Claim C9: the available-codec set always contains Deflate and Gzip,
contains Zopfli, Brotli and Zstd exactly when the corresponding optional
backend was compiled in, and for every negotiation a codec whose backend is
not compiled in never appears in the negotiated priority list (so it is
never attempted). -/
theorem codec_availability_set (f : BuildFlags) :
    codecAvailable f Compression.Gzip = true ∧
    codecAvailable f Compression.Deflate = true ∧
    (codecAvailable f Compression.Zopfli = true ↔ f.withZopfli = true) ∧
    (codecAvailable f Compression.Brotli = true ↔ f.withBrotli = true) ∧
    (codecAvailable f Compression.Zstd = true ↔ f.withZstd = true) ∧
    (∀ clientOrder : List Compression, ∀ c : Compression,
      c ∈ negotiateCodecs f clientOrder → codecAvailable f c = true) := by
  refine ⟨rfl, rfl, Iff.rfl, Iff.rfl, Iff.rfl, ?_⟩
  intro clientOrder c hc
  exact (List.mem_filter.mp hc).2

/-- Witness for C9 at a concrete input: with no optional backend compiled
in, Brotli is dropped from the negotiation of [Brotli, Gzip] and the gzip
codec is available. -/
theorem codec_availability_set_witness :
    codecAvailable (BuildFlags.mk false false false) Compression.Gzip = true ∧
    (Compression.Gzip ∈
        negotiateCodecs (BuildFlags.mk false false false)
          [Compression.Brotli, Compression.Gzip] →
      codecAvailable (BuildFlags.mk false false false) Compression.Gzip = true) :=
  ⟨(codec_availability_set (BuildFlags.mk false false false)).1,
    (codec_availability_set (BuildFlags.mk false false false)).2.2.2.2.2
      [Compression.Brotli, Compression.Gzip] Compression.Gzip⟩

/-- The four little-endian bytes of a 32-bit value, as stored in the MTIME
field of a gzip member header (RFC 1952). -/
def toLE32 (n : Nat) : List Nat :=
  [n % 256, n / 256 % 256, n / 65536 % 256, n / 16777216 % 256]

/-- Modelled from the spec: `StaticCompressedPrivate::compressGzip`
(declared at staticcompressed_p.h lines 32-34; the defining source file is
not available).  It takes the source's original last-modified timestamp as
an explicit argument and writes a gzip member whose header MTIME field is
that timestamp, not the wall-clock time of the compression run; the deflate
body is produced by the zlib backend at the configured level.  The backend
and the wall clock are explicit parameters here so that independence from
the wall clock is expressible. -/
def compressGzipModel (deflateBackend : List Nat → Int → List Nat)
    (input : List Nat) (level : Int) (origLastModified : Nat) (wallClock : Nat) :
    List Nat :=
  let _unusedWallClock := wallClock
  31 :: 139 :: 8 :: 0 ::
    (toLE32 (origLastModified % 4294967296) ++ 0 :: 255 :: deflateBackend input level)

/-- Claim C10: gzip compression is deterministic and time-independent: for a
fixed deflate backend, input, configured level and origLastModified value,
two invocations at different wall-clock times produce byte-identical
output; and the header really embeds the source's mtime, since two
origLastModified values that differ modulo 2^32 produce different output at
the same wall-clock time. -/
theorem compressGzip_time_independent
    (deflateBackend : List Nat → Int → List Nat) (input : List Nat) (level : Int) :
    (∀ origLastModified t₁ t₂ : Nat,
      compressGzipModel deflateBackend input level origLastModified t₁ =
        compressGzipModel deflateBackend input level origLastModified t₂) ∧
    (∀ m₁ m₂ t : Nat, m₁ % 4294967296 ≠ m₂ % 4294967296 →
      compressGzipModel deflateBackend input level m₁ t ≠
        compressGzipModel deflateBackend input level m₂ t) := by
  constructor
  · intro origLastModified t₁ t₂
    rfl
  · intro m₁ m₂ t hne heq
    unfold compressGzipModel toLE32 at heq
    simp only [List.cons_append, List.cons.injEq, List.nil_append] at heq
    omega

/-- Witness for C10 at a concrete input: for the empty deflate backend, the
outputs for mtimes 0 and 1 differ. -/
theorem compressGzip_time_independent_witness :
    compressGzipModel (fun _ _ => []) [] 9 0 7 ≠
      compressGzipModel (fun _ _ => []) [] 9 1 7 :=
  (compressGzip_time_independent (fun _ _ => []) [] 9).2 0 1 7 (by decide)

/-- Modelled from the spec: usability of a precompressed sibling (§4.2; the
defining source file is not available).  `sib c` is the last-modified
timestamp of the sibling file `<original>.<codec-extension>` for codec `c`
in the probed include paths, or none when no such file exists.  A sibling is
usable only if it exists and its own timestamp is not older than the source
asset's timestamp. -/
def siblingUsable (srcTs : Nat) (sib : Compression → Option Nat)
    (c : Compression) : Bool :=
  match sib c with
  | none => false
  | some m => decide (srcTs ≤ m)

/-- Modelled from the spec: `StaticCompressedPrivate::locateCompressedFile`
(declared at staticcompressed_p.h line 28; the defining source file is not
available).  Given the source timestamp and the ordered candidate codec
list, the first codec with a usable sibling wins; if every sibling is
missing or stale the locator signals not-found (§4.2). -/
def locateCompressedFile (srcTs : Nat) (sib : Compression → Option Nat) :
    List Compression → Option Compression
  | [] => none
  | c :: rest =>
      if siblingUsable srcTs sib c then some c
      else locateCompressedFile srcTs sib rest

theorem locateCompressedFile_some_aux {srcTs : Nat} {sib : Compression → Option Nat} :
    ∀ {order : List Compression} {c : Compression},
      locateCompressedFile srcTs sib order = some c →
      siblingUsable srcTs sib c = true ∧
        ∃ pre post, order = pre ++ c :: post ∧
          ∀ c' ∈ pre, siblingUsable srcTs sib c' = false := by
  intro order
  induction order with
  | nil =>
    intro c h
    simp [locateCompressedFile] at h
  | cons d rest ih =>
    intro c h
    by_cases hd : siblingUsable srcTs sib d = true
    · rw [locateCompressedFile, if_pos hd] at h
      obtain rfl : d = c := Option.some_injective _ h
      exact ⟨hd, [], rest, rfl, by simp⟩
    · rw [locateCompressedFile, if_neg hd] at h
      obtain ⟨hu, pre, post, horder, hpre⟩ := ih h
      refine ⟨hu, d :: pre, post, by simp [horder], ?_⟩
      intro c' hc'
      rcases List.mem_cons.mp hc' with rfl | hmem
      · exact Bool.eq_false_iff.mpr hd
      · exact hpre c' hmem

theorem locateCompressedFile_none_aux {srcTs : Nat} {sib : Compression → Option Nat} :
    ∀ order : List Compression,
      locateCompressedFile srcTs sib order = none ↔
        ∀ c ∈ order, siblingUsable srcTs sib c = false := by
  intro order
  induction order with
  | nil => simp [locateCompressedFile]
  | cons d rest ih =>
    by_cases hd : siblingUsable srcTs sib d = true
    · rw [locateCompressedFile, if_pos hd]
      simp only [List.mem_cons]
      constructor
      · intro h
        exact absurd h (by simp)
      · intro h
        have := h d (Or.inl rfl)
        rw [hd] at this
        exact absurd this (by simp)
    · rw [locateCompressedFile, if_neg hd]
      rw [ih]
      constructor
      · intro h c hc
        rcases List.mem_cons.mp hc with rfl | hmem
        · exact Bool.eq_false_iff.mpr hd
        · exact h c hmem
      · intro h c hc
        exact h c (List.mem_cons_of_mem d hc)

theorem siblingUsable_iff (srcTs : Nat) (sib : Compression → Option Nat)
    (c : Compression) :
    siblingUsable srcTs sib c = true ↔ ∃ m, sib c = some m ∧ srcTs ≤ m := by
  unfold siblingUsable
  rcases hm : sib c with _ | m
  · simp
  · simp

/-- Claim C5: the Precompressed Locator returns a sibling only if that
sibling exists and its last-modified timestamp is not older than the
source's; among usable siblings the first in codec priority order is
returned; if every sibling is missing or stale it signals not-found (falling
through to the Cache Store), and a stale sibling (strictly older than the
source) is never returned. -/
theorem locateCompressedFile_freshness (srcTs : Nat) (sib : Compression → Option Nat)
    (order : List Compression) :
    (∀ c : Compression, locateCompressedFile srcTs sib order = some c →
      (∃ m, sib c = some m ∧ srcTs ≤ m) ∧
        ∃ pre post, order = pre ++ c :: post ∧
          ∀ c' ∈ pre, siblingUsable srcTs sib c' = false) ∧
    (locateCompressedFile srcTs sib order = none ↔
      ∀ c ∈ order, siblingUsable srcTs sib c = false) ∧
    (∀ c : Compression, ∀ m : Nat, sib c = some m → m < srcTs →
      locateCompressedFile srcTs sib order ≠ some c) := by
  refine ⟨?_, locateCompressedFile_none_aux order, ?_⟩
  · intro c h
    obtain ⟨hu, hfirst⟩ := locateCompressedFile_some_aux h
    exact ⟨(siblingUsable_iff srcTs sib c).mp hu, hfirst⟩
  · intro c m hm hstale h
    obtain ⟨hu, _⟩ := locateCompressedFile_some_aux h
    obtain ⟨m', hm', hle⟩ := (siblingUsable_iff srcTs sib c).mp hu
    rw [hm] at hm'
    injection hm' with hm''
    omega

/-- A sibling map with a single, stale Brotli sibling (timestamp 3, older
than a source at timestamp 5). -/
def staleSibExample : Compression → Option Nat
  | .Brotli => some 3
  | _ => none

/-- Witness for C5 at a concrete input: the stale `style.css.br` sibling
(timestamp 3 against source timestamp 5) is never returned. -/
theorem locateCompressedFile_freshness_witness :
    locateCompressedFile 5 staleSibExample
      [Compression.Brotli, Compression.Gzip] ≠ some Compression.Brotli :=
  (locateCompressedFile_freshness 5 staleSibExample
    [Compression.Brotli, Compression.Gzip]).2.2 Compression.Brotli 3 rfl (by decide)

/-- The per-request states of the Request Filter state machine (§4.5);
`beforePrepareAction` (staticcompressed_p.h line 27) drives a request from
`unchecked` to one of the two terminal states. -/
inductive ReqState : Type
  | unchecked
  | precompressedCheck
  | cacheLookupOrBuild
  | serveCompressed
  | passthrough
  deriving DecidableEq, Repr

/-- The request-independent inputs that drive one run of the Request Filter:
whether the Eligibility Matcher accepts, whether a fresh precompressed
sibling exists, and the configured flags, plus whether the cache lookup or
build succeeds. -/
structure ReqInputs where
  eligible : Bool
  siblingFresh : Bool
  checkPreCompressed : Bool
  onTheFlyCompression : Bool
  buildOk : Bool
  deriving DecidableEq, Repr

/-- Modelled from the spec: one transition of the Request Filter state
machine of §4.5 (the defining source file of `beforePrepareAction` is not
available).  Terminal states map to themselves. -/
def reqStep (i : ReqInputs) : ReqState → ReqState
  | .unchecked =>
      if i.eligible then .precompressedCheck else .passthrough
  | .precompressedCheck =>
      if i.checkPreCompressed && i.siblingFresh then .serveCompressed
      else if i.onTheFlyCompression then .cacheLookupOrBuild
      else .passthrough
  | .cacheLookupOrBuild =>
      if i.buildOk then .serveCompressed else .passthrough
  | .serveCompressed => .serveCompressed
  | .passthrough => .passthrough

/-- The state a request has resolved to after the three phases of the
Request Filter have run. -/
def reqOutcome (i : ReqInputs) : ReqState :=
  reqStep i (reqStep i (reqStep i ReqState.unchecked))

/-- Claim C4: every request entering the Request Filter resolves to exactly
one of the two terminal states ServeCompressed or Passthrough (the resolved
state is one of the two, never both, and is a fixed point of the machine);
no error propagates as a hard failure: when the build fails and no fresh
sibling applies, the outcome is Passthrough — the original file served
uncompressed, never a broken response. -/
theorem request_resolves_to_terminal (i : ReqInputs) :
    ((reqOutcome i = ReqState.serveCompressed ∧ reqOutcome i ≠ ReqState.passthrough) ∨
      (reqOutcome i = ReqState.passthrough ∧ reqOutcome i ≠ ReqState.serveCompressed)) ∧
    reqStep i (reqOutcome i) = reqOutcome i ∧
    (i.buildOk = false → (i.checkPreCompressed && i.siblingFresh) = false →
      reqOutcome i = ReqState.passthrough) := by
  obtain ⟨e, s, cp, fly, b⟩ := i
  cases e <;> cases s <;> cases cp <;> cases fly <;> cases b <;> decide

/-- Witness for C4 at a concrete input: an eligible request with no fresh
sibling whose build fails resolves to Passthrough. -/
theorem request_resolves_to_terminal_witness :
    reqOutcome (ReqInputs.mk true false true true false) = ReqState.passthrough :=
  (request_resolves_to_terminal (ReqInputs.mk true false true true false)).2.2 rfl rfl

/-- A file in the cache directory tree: either a compression artifact still
being written, or a complete one. -/
inductive Artifact : Type
  | halfWritten (c : Compression)
  | fullyWritten (c : Compression)
  deriving DecidableEq, Repr

/-- The observable state of the cache directory tree: the artifact present
at each path, if any. -/
def FSState : Type := (List Char) → Option Artifact

/-- Writing a file at a path. -/
def fsWrite (fs : FSState) (path : List Char) (a : Artifact) : FSState :=
  fun q => if q = path then some a else fs q

/-- Removing the file at a path. -/
def fsErase (fs : FSState) (path : List Char) : FSState :=
  fun q => if q = path then none else fs q

/-- The tail of a temporary-file name: the extension `tmp` after a dot. -/
def tmpTail : List Char := ['t', 'm', 'p']

/-- The temporary path used while building the artifact destined for
`cachePath`, in the same directory. -/
def tmpPath (cachePath : List Char) : List Char := cachePath ++ '.' :: tmpTail

/-- A temporary path never coincides with any computed cache path: the final
dot-separated component of a cache path is a codec extension tag, never
`tmp`. -/
theorem tmpPath_ne_cache (x cacheRoot p : List Char) (t : Nat) (c : Compression) :
    tmpPath x ≠ locateCacheFile cacheRoot p t c := by
  intro h
  have hform : locateCacheFile cacheRoot p t c =
      (cacheRoot ++ '/' :: (p ++ '.' :: natToChars t)) ++ '.' :: codecExt c := by
    simp [locateCacheFile, List.append_assoc]
  rw [hform] at h
  have htail := (append_dot_inj (by decide) (dot_not_mem_codecExt c) h).2
  cases c <;> exact absurd htail (by decide)

/-- The outcome tag of `locateOrBuild` (§4.3):
`locateOrBuild(...) → (cachePath, fresh|built|failed)`. -/
inductive BuildResult : Type
  | fresh
  | built
  | failed
  deriving DecidableEq, Repr

/-- One run of the Cache Store: the final filesystem state, the outcome tag,
and the list of filesystem states observable during the run (in order). -/
structure BuildRun where
  finalFS : FSState
  result : BuildResult
  trace : List FSState

/-- Modelled from the spec: `locateOrBuild` of the Cache Store (§4.3; the
defining source file is not available).  If a file exists at the computed
cache path the entry is fresh.  Otherwise, if the destination directory
cannot be created or written the run fails with the tree untouched; if the
codec errors the run fails, with any partial temporary output removed and
nothing ever created at the cache path.  On success the artifact is written
to a temporary path in the destination directory and renamed into place only
after the codec reports success. -/
def locateOrBuild (fs : FSState) (cacheRoot p : List Char) (ts : Nat)
    (c : Compression) (dirOk codecOk : Bool) : BuildRun :=
  let cachePath := locateCacheFile cacheRoot p ts c
  match fs cachePath, dirOk, codecOk with
  | some _, _, _ => ⟨fs, BuildResult.fresh, [fs]⟩
  | none, false, _ => ⟨fs, BuildResult.failed, [fs]⟩
  | none, true, false =>
      let s₁ := fsWrite fs (tmpPath cachePath) (Artifact.halfWritten c)
      let s₂ := fsErase s₁ (tmpPath cachePath)
      ⟨s₂, BuildResult.failed, [fs, s₁, s₂]⟩
  | none, true, true =>
      let s₁ := fsWrite fs (tmpPath cachePath) (Artifact.halfWritten c)
      let s₂ := fsWrite s₁ (tmpPath cachePath) (Artifact.fullyWritten c)
      let s₃ := fsWrite (fsErase s₂ (tmpPath cachePath)) cachePath (Artifact.fullyWritten c)
      ⟨s₃, BuildResult.built, [fs, s₁, s₂, s₃]⟩

/-- No cache path of the tree holds a partially written artifact. -/
def noHalfAtCachePaths (fs : FSState) : Prop :=
  ∀ cacheRoot p : List Char, ∀ t : Nat, ∀ c c' : Compression,
    fs (locateCacheFile cacheRoot p t c) ≠ some (Artifact.halfWritten c')

/-- Claim C3: cache builds are atomic.  Starting from a tree with no partial
artifact at any cache path, every filesystem state observable during a run
of `locateOrBuild` still has no partial artifact at any cache path (the
artifact is written to a temporary path and renamed into place only after
the codec succeeds); and on any failure — codec error or unwritable
destination directory — the run returns `failed` without creating any file
at any cache path, leaving the cache state unchanged; on a successful miss
it returns `built` with the complete artifact at the cache path and the
temporary file gone. -/
theorem locateOrBuild_atomic (fs : FSState) (cacheRoot p : List Char) (ts : Nat)
    (c : Compression) (dirOk codecOk : Bool)
    (hclean : noHalfAtCachePaths fs) :
    (∀ s ∈ (locateOrBuild fs cacheRoot p ts c dirOk codecOk).trace,
      noHalfAtCachePaths s) ∧
    (fs (locateCacheFile cacheRoot p ts c) = none → (dirOk = false ∨ codecOk = false) →
      (locateOrBuild fs cacheRoot p ts c dirOk codecOk).result = BuildResult.failed ∧
      (∀ r' p' : List Char, ∀ t' : Nat, ∀ c' : Compression,
        (locateOrBuild fs cacheRoot p ts c dirOk codecOk).finalFS
            (locateCacheFile r' p' t' c') =
          fs (locateCacheFile r' p' t' c')) ∧
      (locateOrBuild fs cacheRoot p ts c dirOk codecOk).finalFS
          (locateCacheFile cacheRoot p ts c) = none) ∧
    (fs (locateCacheFile cacheRoot p ts c) = none → dirOk = true → codecOk = true →
      (locateOrBuild fs cacheRoot p ts c dirOk codecOk).result = BuildResult.built ∧
      (locateOrBuild fs cacheRoot p ts c dirOk codecOk).finalFS
          (locateCacheFile cacheRoot p ts c) = some (Artifact.fullyWritten c) ∧
      (locateOrBuild fs cacheRoot p ts c dirOk codecOk).finalFS
          (tmpPath (locateCacheFile cacheRoot p ts c)) = none) := by
  have hne : ∀ r' p' : List Char, ∀ t' : Nat, ∀ c' : Compression,
      locateCacheFile r' p' t' c' ≠ tmpPath (locateCacheFile cacheRoot p ts c) :=
    fun r' p' t' c' => Ne.symm (tmpPath_ne_cache _ r' p' t' c')
  cases hfs : fs (locateCacheFile cacheRoot p ts c) with
  | some a =>
    refine ⟨?_, ?_, ?_⟩
    · intro s hs
      simp only [locateOrBuild, hfs, List.mem_singleton] at hs
      exact hs ▸ hclean
    · intro hmiss
      exact absurd hmiss (by simp)
    · intro hmiss
      exact absurd hmiss (by simp)
  | none =>
    cases dirOk with
    | false =>
      refine ⟨?_, ?_, ?_⟩
      · intro s hs
        simp only [locateOrBuild, hfs, List.mem_singleton] at hs
        exact hs ▸ hclean
      · intro _ _
        refine ⟨?_, ?_, ?_⟩
        · simp [locateOrBuild, hfs]
        · intro r' p' t' c'
          simp [locateOrBuild, hfs]
        · simp [locateOrBuild, hfs, hfs]
      · intro _ hdir _
        exact absurd hdir (by simp)
    | true =>
      cases codecOk with
      | false =>
        have h1 : ∀ r' p' : List Char, ∀ t' : Nat, ∀ c' : Compression,
            (fsErase (fsWrite fs (tmpPath (locateCacheFile cacheRoot p ts c))
                (Artifact.halfWritten c)) (tmpPath (locateCacheFile cacheRoot p ts c)))
              (locateCacheFile r' p' t' c') = fs (locateCacheFile r' p' t' c') := by
          intro r' p' t' c'
          simp [fsErase, fsWrite, hne r' p' t' c']
        refine ⟨?_, ?_, ?_⟩
        · intro s hs
          simp only [locateOrBuild, hfs, List.mem_cons, List.mem_singleton,
            List.not_mem_nil, or_false] at hs
          rcases hs with rfl | rfl | rfl
          · exact hclean
          · intro r' p' t' cA cB
            simp [fsWrite, hne r' p' t' cA]
            exact hclean r' p' t' cA cB
          · intro r' p' t' cA cB
            rw [h1 r' p' t' cA]
            exact hclean r' p' t' cA cB
        · intro _ _
          refine ⟨by simp [locateOrBuild, hfs], ?_, ?_⟩
          · intro r' p' t' c'
            show (locateOrBuild fs cacheRoot p ts c true false).finalFS _ = _
            rw [show (locateOrBuild fs cacheRoot p ts c true false).finalFS =
              fsErase (fsWrite fs (tmpPath (locateCacheFile cacheRoot p ts c))
                (Artifact.halfWritten c)) (tmpPath (locateCacheFile cacheRoot p ts c)) by
                simp [locateOrBuild, hfs]]
            exact h1 r' p' t' c'
          · rw [show (locateOrBuild fs cacheRoot p ts c true false).finalFS =
              fsErase (fsWrite fs (tmpPath (locateCacheFile cacheRoot p ts c))
                (Artifact.halfWritten c)) (tmpPath (locateCacheFile cacheRoot p ts c)) by
                simp [locateOrBuild, hfs]]
            rw [h1 cacheRoot p ts c]
            exact hfs
        · intro _ _ hcodec
          exact absurd hcodec (by simp)
      | true =>
        have hfinal : (locateOrBuild fs cacheRoot p ts c true true).finalFS =
            fsWrite (fsErase (fsWrite (fsWrite fs
                (tmpPath (locateCacheFile cacheRoot p ts c)) (Artifact.halfWritten c))
                (tmpPath (locateCacheFile cacheRoot p ts c)) (Artifact.fullyWritten c))
                (tmpPath (locateCacheFile cacheRoot p ts c)))
              (locateCacheFile cacheRoot p ts c) (Artifact.fullyWritten c) := by
          simp [locateOrBuild, hfs]
        refine ⟨?_, ?_, ?_⟩
        · intro s hs
          simp only [locateOrBuild, hfs, List.mem_cons, List.mem_singleton,
            List.not_mem_nil, or_false] at hs
          rcases hs with rfl | rfl | rfl | rfl
          · exact hclean
          · intro r' p' t' cA cB
            simp [fsWrite, hne r' p' t' cA]
            exact hclean r' p' t' cA cB
          · intro r' p' t' cA cB
            simp [fsWrite, hne r' p' t' cA]
            exact hclean r' p' t' cA cB
          · intro r' p' t' cA cB
            by_cases hq : locateCacheFile r' p' t' cA = locateCacheFile cacheRoot p ts c
            · simp [fsWrite, hq]
            · simp [fsWrite, fsErase, hq, hne r' p' t' cA]
              exact hclean r' p' t' cA cB
        · intro _ hbad
          rcases hbad with hbad | hbad <;> exact absurd hbad (by simp)
        · intro _ _ _
          refine ⟨by simp [locateOrBuild, hfs], ?_, ?_⟩
          · rw [hfinal]
            simp [fsWrite]
          · rw [hfinal]
            simp only [fsWrite, fsErase]
            rw [if_neg (tmpPath_ne_cache _ cacheRoot p ts c)]
            simp

/-- Witness for C3 at a concrete input: starting from the empty tree, a
codec failure for the deflate artifact of source `a` at timestamp 2 leaves
the tree unchanged at the computed cache path. -/
theorem locateOrBuild_atomic_witness :
    (locateOrBuild (fun _ => none) ['t'] ['a'] 2 Compression.Deflate true
        false).result = BuildResult.failed ∧
    (locateOrBuild (fun _ => none) ['t'] ['a'] 2 Compression.Deflate true
        false).finalFS (locateCacheFile ['t'] ['a'] 2 Compression.Deflate) = none :=
  have h := (locateOrBuild_atomic (fun _ => none) ['t'] ['a'] 2 Compression.Deflate
    true false (fun _ _ _ _ _ => by simp)).2.1 rfl (Or.inr rfl)
  ⟨h.1, h.2.2⟩

/-- The phase of one request thread working on a fixed uncached cache key:
not yet consulted the registry, compressing (registry entry held), waiting
on another thread's completion signal, or finished. -/
inductive ThreadPhase : Type
  | start
  | building
  | waiting
  | done
  deriving DecidableEq, Repr

/-- The process-wide state for one cache key under concurrent access:
the phase of each of the `n` request threads, whether the in-progress
registry holds an entry for the key, whether the built artifact exists at
the key's (single, by `locateCacheFile` determinism) cache path, and how
often the codec backend has been invoked. -/
structure RegistryState (n : Nat) where
  pcs : Fin n → ThreadPhase
  inFlight : Bool
  filePresent : Bool
  invocations : Nat

/-- All threads about to request the same uncached key: nothing built,
no registry entry, no codec invocation yet. -/
def initialRegistryState (n : Nat) : RegistryState n :=
  ⟨fun _ => ThreadPhase.start, false, false, 0⟩

/-- Modelled from the spec: the interleaved steps of the per-key
at-most-one-compression protocol (§5; the defining source file is not
available).  A thread consults the cache and the in-progress registry: on a
hit it finishes; on a miss with a free registry it inserts the entry and
invokes the codec; on a miss with an occupied registry it waits on the
existing completion signal; finishing a build removes the registry entry
unconditionally, on success (artifact appears) and on failure alike; a
waiter wakes once the entry is gone and re-runs the protocol (retry).  When
`allOk` is true every codec invocation succeeds. -/
inductive RegStep {n : Nat} (allOk : Bool) : RegistryState n → RegistryState n → Prop
  | hit (s : RegistryState n) (i : Fin n) (hpc : s.pcs i = ThreadPhase.start)
      (hfile : s.filePresent = true) :
      RegStep allOk s
        ⟨Function.update s.pcs i ThreadPhase.done, s.inFlight, s.filePresent,
          s.invocations⟩
  | beginBuild (s : RegistryState n) (i : Fin n) (hpc : s.pcs i = ThreadPhase.start)
      (hfile : s.filePresent = false) (hflight : s.inFlight = false) :
      RegStep allOk s
        ⟨Function.update s.pcs i ThreadPhase.building, true, false,
          s.invocations + 1⟩
  | waitOn (s : RegistryState n) (i : Fin n) (hpc : s.pcs i = ThreadPhase.start)
      (hfile : s.filePresent = false) (hflight : s.inFlight = true) :
      RegStep allOk s
        ⟨Function.update s.pcs i ThreadPhase.waiting, s.inFlight, s.filePresent,
          s.invocations⟩
  | finish (s : RegistryState n) (i : Fin n) (ok : Bool)
      (hpc : s.pcs i = ThreadPhase.building) (hok : allOk = true → ok = true) :
      RegStep allOk s
        ⟨Function.update s.pcs i ThreadPhase.done, false, s.filePresent || ok,
          s.invocations⟩
  | wake (s : RegistryState n) (i : Fin n) (hpc : s.pcs i = ThreadPhase.waiting)
      (hflight : s.inFlight = false) :
      RegStep allOk s
        ⟨Function.update s.pcs i ThreadPhase.start, s.inFlight, s.filePresent,
          s.invocations⟩

/-- The states reachable from the initial all-start state by interleaving. -/
inductive RegReach {n : Nat} (allOk : Bool) : RegistryState n → Prop
  | base : RegReach allOk (initialRegistryState n)
  | step {s s' : RegistryState n} (hr : RegReach allOk s) (hs : RegStep allOk s s') :
      RegReach allOk s'

/-- The inductive invariant of the per-key protocol. -/
def RegInv {n : Nat} (allOk : Bool) (s : RegistryState n) : Prop :=
  (s.inFlight = true ↔ ∃ i, s.pcs i = ThreadPhase.building) ∧
  (∀ i j : Fin n, s.pcs i = ThreadPhase.building → s.pcs j = ThreadPhase.building →
    i = j) ∧
  (s.filePresent = true → 1 ≤ s.invocations) ∧
  ((∃ i, s.pcs i = ThreadPhase.building ∨ s.pcs i = ThreadPhase.done) →
    1 ≤ s.invocations) ∧
  (allOk = true → 1 ≤ s.invocations → (s.filePresent = true ∨ s.inFlight = true)) ∧
  (allOk = true → s.invocations ≤ 1)

theorem regInv_initial (n : Nat) (allOk : Bool) :
    RegInv allOk (initialRegistryState n) := by
  refine ⟨?_, ?_, ?_, ?_, ?_, ?_⟩
  · simp [initialRegistryState]
  · intro i j hi
    simp [initialRegistryState] at hi
  · intro h
    simp [initialRegistryState] at h
  · intro h
    obtain ⟨i, hi⟩ := h
    simp [initialRegistryState] at hi
  · intro _ h
    simp [initialRegistryState] at h
  · intro _
    simp [initialRegistryState]

theorem update_phase_cases {n : Nat} {pcs : Fin n → ThreadPhase} {i j : Fin n}
    {v w : ThreadPhase} (h : Function.update pcs i v j = w) :
    (j = i ∧ v = w) ∨ (j ≠ i ∧ pcs j = w) := by
  rw [Function.update_apply] at h
  by_cases hji : j = i
  · rw [if_pos hji] at h
    exact Or.inl ⟨hji, h⟩
  · rw [if_neg hji] at h
    exact Or.inr ⟨hji, h⟩

theorem exists_building_update {n : Nat} (pcs : Fin n → ThreadPhase) (i : Fin n)
    (v : ThreadPhase) (hv : v ≠ ThreadPhase.building)
    (hold : pcs i ≠ ThreadPhase.building) :
    (∃ j, Function.update pcs i v j = ThreadPhase.building) ↔
      ∃ j, pcs j = ThreadPhase.building := by
  constructor
  · rintro ⟨j, hj⟩
    rcases update_phase_cases hj with ⟨_, hvv⟩ | ⟨_, hj'⟩
    · exact absurd hvv hv
    · exact ⟨j, hj'⟩
  · rintro ⟨j, hj⟩
    refine ⟨j, ?_⟩
    rw [Function.update_apply, if_neg ?_]
    · exact hj
    · intro hji
      exact hold (hji ▸ hj)

theorem regInv_preserved {n : Nat} {allOk : Bool} {s s' : RegistryState n}
    (hinv : RegInv allOk s) (hstep : RegStep allOk s s') : RegInv allOk s' := by
  obtain ⟨inv1, inv2, inv3, inv4, inv5, inv6⟩ := hinv
  cases hstep with
  | hit i hpc hfile =>
    refine ⟨?_, ?_, inv3, ?_, inv5, inv6⟩
    · dsimp only
      rw [exists_building_update s.pcs i ThreadPhase.done (by simp) (by simp [hpc])]
      exact inv1
    · intro a b ha hb
      dsimp only at ha hb
      rcases update_phase_cases ha with ⟨_, hvv⟩ | ⟨_, ha'⟩
      · exact absurd hvv (by simp)
      · rcases update_phase_cases hb with ⟨_, hvv⟩ | ⟨_, hb'⟩
        · exact absurd hvv (by simp)
        · exact inv2 a b ha' hb'
    · intro _
      exact inv3 hfile
  | beginBuild i hpc hfile hflight =>
    have hnob : ∀ j, s.pcs j ≠ ThreadPhase.building := by
      intro j hj
      have := inv1.mpr ⟨j, hj⟩
      rw [hflight] at this
      exact absurd this (by simp)
    refine ⟨?_, ?_, ?_, ?_, ?_, ?_⟩
    · dsimp only
      constructor
      · intro _
        exact ⟨i, by simp [Function.update_apply]⟩
      · intro _
        rfl
    · intro a b ha hb
      dsimp only at ha hb
      rcases update_phase_cases ha with ⟨hai, _⟩ | ⟨_, ha'⟩
      · rcases update_phase_cases hb with ⟨hbi, _⟩ | ⟨_, hb'⟩
        · rw [hai, hbi]
        · exact absurd hb' (hnob b)
      · exact absurd ha' (hnob a)
    · intro h
      exact absurd h (by simp)
    · intro _
      dsimp only
      omega
    · intro _ _
      right
      rfl
    · intro hall
      dsimp only
      have h0 : s.invocations = 0 := by
        by_contra hnz
        have h1 : 1 ≤ s.invocations := by omega
        rcases inv5 hall h1 with h | h
        · rw [hfile] at h
          exact absurd h (by simp)
        · rw [hflight] at h
          exact absurd h (by simp)
      omega
  | waitOn i hpc hfile hflight =>
    refine ⟨?_, ?_, inv3, ?_, inv5, inv6⟩
    · dsimp only
      rw [exists_building_update s.pcs i ThreadPhase.waiting (by simp) (by simp [hpc])]
      exact inv1
    · intro a b ha hb
      dsimp only at ha hb
      rcases update_phase_cases ha with ⟨_, hvv⟩ | ⟨_, ha'⟩
      · exact absurd hvv (by simp)
      · rcases update_phase_cases hb with ⟨_, hvv⟩ | ⟨_, hb'⟩
        · exact absurd hvv (by simp)
        · exact inv2 a b ha' hb'
    · rintro ⟨j, hj⟩
      dsimp only at hj
      rcases hj with hj | hj
      · rcases update_phase_cases hj with ⟨_, hvv⟩ | ⟨_, hj'⟩
        · exact absurd hvv (by simp)
        · exact inv4 ⟨j, Or.inl hj'⟩
      · rcases update_phase_cases hj with ⟨_, hvv⟩ | ⟨_, hj'⟩
        · exact absurd hvv (by simp)
        · exact inv4 ⟨j, Or.inr hj'⟩
  | finish i ok hpc hok =>
    have hc : 1 ≤ s.invocations := inv4 ⟨i, Or.inl hpc⟩
    refine ⟨?_, ?_, ?_, ?_, ?_, inv6⟩
    · dsimp only
      constructor
      · intro h
        exact absurd h (by simp)
      · rintro ⟨j, hj⟩
        rcases update_phase_cases hj with ⟨_, hvv⟩ | ⟨hji, hj'⟩
        · exact absurd hvv (by simp)
        · exact absurd (inv2 j i hj' hpc) hji
    · intro a b ha hb
      dsimp only at ha hb
      rcases update_phase_cases ha with ⟨_, hvv⟩ | ⟨hai, ha'⟩
      · exact absurd hvv (by simp)
      · exact absurd (inv2 a i ha' hpc) hai
    · intro _
      exact hc
    · intro _
      exact hc
    · intro hall _
      left
      dsimp only
      rw [hok hall]
      simp
  | wake i hpc hflight =>
    refine ⟨?_, ?_, inv3, ?_, inv5, inv6⟩
    · dsimp only
      rw [exists_building_update s.pcs i ThreadPhase.start (by simp) (by simp [hpc])]
      exact inv1
    · intro a b ha hb
      dsimp only at ha hb
      rcases update_phase_cases ha with ⟨_, hvv⟩ | ⟨_, ha'⟩
      · exact absurd hvv (by simp)
      · rcases update_phase_cases hb with ⟨_, hvv⟩ | ⟨_, hb'⟩
        · exact absurd hvv (by simp)
        · exact inv2 a b ha' hb'
    · rintro ⟨j, hj⟩
      dsimp only at hj
      rcases hj with hj | hj
      · rcases update_phase_cases hj with ⟨_, hvv⟩ | ⟨_, hj'⟩
        · exact absurd hvv (by simp)
        · exact inv4 ⟨j, Or.inl hj'⟩
      · rcases update_phase_cases hj with ⟨_, hvv⟩ | ⟨_, hj'⟩
        · exact absurd hvv (by simp)
        · exact inv4 ⟨j, Or.inr hj'⟩

theorem regInv_of_reach {n : Nat} {allOk : Bool} {s : RegistryState n}
    (h : RegReach allOk s) : RegInv allOk s := by
  induction h with
  | base => exact regInv_initial n allOk
  | step _ hs ih => exact regInv_preserved ih hs

/-- Claim C6: at most one compression is in flight per cache key.  In every
reachable interleaving of N concurrent requests for the same uncached key:
when every codec invocation succeeds, the codec backend is invoked at most
once overall; whenever no thread is mid-build the registry entry for the key
is absent — it is removed unconditionally on success and on failure, so a
failed attempt never permanently poisons the key and a later request may
retry; any finished thread implies at least one invocation; and when all N
(N at least 1) threads have finished under successful compression, the
backend was invoked exactly once and all of them observed the one final
artifact at the key's single cache path. -/
theorem single_flight_per_key {n : Nat} (allOk : Bool) (s : RegistryState n)
    (hreach : RegReach allOk s) :
    (allOk = true → s.invocations ≤ 1) ∧
    ((∀ i, s.pcs i ≠ ThreadPhase.building) → s.inFlight = false) ∧
    ((∃ i, s.pcs i = ThreadPhase.done) → 1 ≤ s.invocations) ∧
    (allOk = true → (∀ i, s.pcs i = ThreadPhase.done) → 1 ≤ n →
      s.invocations = 1 ∧ s.filePresent = true) := by
  obtain ⟨inv1, inv2, inv3, inv4, inv5, inv6⟩ := regInv_of_reach hreach
  refine ⟨inv6, ?_, ?_, ?_⟩
  · intro hnb
    cases hsf : s.inFlight with
    | false => rfl
    | true =>
      obtain ⟨j, hj⟩ := inv1.mp hsf
      exact absurd hj (hnb j)
  · rintro ⟨i, hi⟩
    exact inv4 ⟨i, Or.inr hi⟩
  · intro hall hdone hn
    have h1 : 1 ≤ s.invocations := inv4 ⟨⟨0, hn⟩, Or.inr (hdone ⟨0, hn⟩)⟩
    have h2 : s.invocations ≤ 1 := inv6 hall
    refine ⟨by omega, ?_⟩
    rcases inv5 hall h1 with h | h
    · exact h
    · obtain ⟨j, hj⟩ := inv1.mp h
      rw [hdone j] at hj
      exact absurd hj (by simp)

/-- The state after the single thread of a one-thread run has entered the
registry and begun compressing. -/
def regS1 : RegistryState 1 :=
  ⟨Function.update (initialRegistryState 1).pcs ⟨0, Nat.one_pos⟩
      ThreadPhase.building, true, false, (initialRegistryState 1).invocations + 1⟩

/-- The state after that build finished successfully: registry entry
removed, artifact present. -/
def regS2 : RegistryState 1 :=
  ⟨Function.update regS1.pcs ⟨0, Nat.one_pos⟩ ThreadPhase.done, false,
    regS1.filePresent || true, regS1.invocations⟩

theorem regS2_reach : RegReach true regS2 :=
  RegReach.step
    (RegReach.step RegReach.base
      (RegStep.beginBuild (initialRegistryState 1) ⟨0, Nat.one_pos⟩ rfl rfl rfl))
    (RegStep.finish regS1 ⟨0, Nat.one_pos⟩ true
      (by simp [regS1, initialRegistryState]) (fun _ => rfl))

/-- Witness for C6 at a concrete input: in the completed one-thread run the
codec was invoked exactly once and the artifact is present. -/
theorem single_flight_per_key_witness :
    regS2.invocations = 1 ∧ regS2.filePresent = true :=
  (single_flight_per_key true regS2 regS2_reach).2.2.2 rfl
    (fun i => by
      fin_cases i
      simp [regS2, regS1, initialRegistryState])
    (by omega)

end Cutelyst
